import Mathlib

/-!
# Verification of `examples/save_all_markdown.py`

A shallow embedding of the markdown exporter.  The script iterates over a
list of lifelog records and, for each, derives a filename from its
`startTime` (parsed with `datetime.datetime.fromisoformat` and converted to
the America/Chicago timezone via `pytz`) and writes the record text to
`export/<filename>`.  Records without a (nonempty) `startTime` are named
from the current time with the 1-based record index appended.

Conventions of the embedding:
* Instants are measured in seconds on a proleptic-Gregorian axis whose day 0
  is 0001-01-01 (the scale of Python `datetime.toordinal`, shifted to days
  since 0001-01-01 and scaled to seconds).  This matches the representable
  range of Python `datetime` (years 1 through 9999).
* Civil (wall-clock) date-times are records of numeric fields.
* The filesystem is a function from filename to optional content, together
  with a journal of write events; the console is a list of log entries.
-/

namespace SaveAllMarkdown

/-! ## Calendar arithmetic (Python `datetime` ordinal functions) -/

/-- Gregorian leap year test, as in Python `datetime._is_leap`. -/
def isLeap (y : Nat) : Bool :=
  (y % 4 == 0 && y % 100 != 0) || y % 400 == 0

/-- Days in a month (1-12), as in Python `datetime._days_in_month`. -/
def daysInMonth (y m : Nat) : Nat :=
  if m = 2 then (if isLeap y then 29 else 28)
  else if m = 4 ∨ m = 6 ∨ m = 9 ∨ m = 11 then 30
  else 31

/-- Days elapsed before month `m` (1-12) in year `y`
(Python `datetime._days_before_month`). -/
def daysBeforeMonth (y m : Nat) : Nat :=
  let feb := if isLeap y then 29 else 28
  match m with
  | 1 => 0
  | 2 => 31
  | 3 => 31 + feb
  | 4 => 62 + feb
  | 5 => 92 + feb
  | 6 => 123 + feb
  | 7 => 153 + feb
  | 8 => 184 + feb
  | 9 => 215 + feb
  | 10 => 245 + feb
  | 11 => 276 + feb
  | _ => 306 + feb

/-- Number of days from 0001-01-01 (day 0) to the civil date `y-m-d`;
Python `datetime._ymd2ord` minus one. -/
def toOrdinal (y m d : Nat) : Nat :=
  365 * (y - 1) + (y - 1) / 4 - (y - 1) / 100 + (y - 1) / 400
    + daysBeforeMonth y m + (d - 1)

/-- Recover month and 1-based day from a 0-based day-of-year `doy` of a year
with February length `feb` (the month scan of Python `datetime._ord2ymd`). -/
def monthFromDoy (feb doy : Nat) : Nat × Nat :=
  if doy < 31 then (1, doy + 1)
  else if doy < 31 + feb then (2, doy - 31 + 1)
  else if doy < 62 + feb then (3, doy - (31 + feb) + 1)
  else if doy < 92 + feb then (4, doy - (62 + feb) + 1)
  else if doy < 123 + feb then (5, doy - (92 + feb) + 1)
  else if doy < 153 + feb then (6, doy - (123 + feb) + 1)
  else if doy < 184 + feb then (7, doy - (153 + feb) + 1)
  else if doy < 215 + feb then (8, doy - (184 + feb) + 1)
  else if doy < 245 + feb then (9, doy - (215 + feb) + 1)
  else if doy < 276 + feb then (10, doy - (245 + feb) + 1)
  else if doy < 306 + feb then (11, doy - (276 + feb) + 1)
  else (12, doy - (306 + feb) + 1)

/-- Inverse of `toOrdinal`: civil date of day number `n` counted from
0001-01-01 as day 0; mirrors Python `datetime._ord2ymd`. -/
def ord2ymd (nIn : Nat) : Nat × Nat × Nat :=
  let n400 := nIn / 146097
  let r1 := nIn % 146097
  let n100 := r1 / 36524
  let r2 := r1 % 36524
  let n4 := r2 / 1461
  let r3 := r2 % 1461
  let n1 := r3 / 365
  let doy := r3 % 365
  let year := n400 * 400 + n100 * 100 + n4 * 4 + n1 + 1
  if n1 = 4 ∨ n100 = 4 then
    (year - 1, 12, 31)
  else
    let md := monthFromDoy (if isLeap year then 29 else 28) doy
    (year, md.1, md.2)

/-- A civil (wall-clock) date-time. -/
structure Civil where
  year : Nat
  month : Nat
  day : Nat
  hour : Nat
  minute : Nat
  second : Nat
  deriving Repr, DecidableEq

/-- Civil date-time of second number `t` counted from 0001-01-01T00:00:00
as second 0. -/
def civilOfSeconds (t : Nat) : Civil :=
  let ymd := ord2ymd (t / 86400)
  let tod := t % 86400
  ⟨ymd.1, ymd.2.1, ymd.2.2, tod / 3600, tod % 3600 / 60, tod % 60⟩

/-- One second past the largest instant Python `datetime` can represent
(start of year 10000), in seconds since 0001-01-01. -/
def maxSeconds : Nat := toOrdinal 10000 1 1 * 86400

/-! ## Decimal rendering and zero padding (`strftime` fields) -/

/-- Decimal digit character. -/
def digitChar (d : Nat) : Char := Char.ofNat (48 + d)

/-- Decimal digits, fuelled so that the definition is structurally
recursive (and hence computes by reduction); `fuel ≥ n` is always enough,
since the argument strictly decreases under division by ten. -/
def decDigitsAux : Nat → Nat → List Char
  | 0, n => [digitChar n]
  | fuel + 1, n =>
    if n < 10 then [digitChar n]
    else decDigitsAux fuel (n / 10) ++ [digitChar (n % 10)]

/-- Decimal digits of `n`, most significant first. -/
def decDigits (n : Nat) : List Char := decDigitsAux n n

/-- Decimal rendering of a natural number (as Python `str`/`%d`). -/
def decStr (n : Nat) : String := ⟨decDigits n⟩

/-- Zero-pad the decimal rendering of `n` to width `w`
(the behaviour of `strftime` numeric directives). -/
def pad (w n : Nat) : String :=
  ⟨List.replicate (w - (decDigits n).length) (digitChar 0)⟩ ++ decStr n

/-- `strftime("%Y-%m-%d-%H-%M-%S")` on a civil date-time. -/
def fmtCivil (c : Civil) : String :=
  pad 4 c.year ++ "-" ++ pad 2 c.month ++ "-" ++ pad 2 c.day ++ "-" ++
    pad 2 c.hour ++ "-" ++ pad 2 c.minute ++ "-" ++ pad 2 c.second

/-! ## The America/Chicago timezone (`pytz.timezone("America/Chicago")`)

The tz database rule for America/Chicago in the era of lifelog records
(2007 and later): standard offset UTC-6 (CST), daylight offset UTC-5 (CDT);
daylight time runs from 02:00 local standard time on the second Sunday of
March (08:00 UTC) until 02:00 local daylight time on the first Sunday of
November (07:00 UTC).  Transitions before 2007 are not modelled; the
current rule is applied to all years. -/

/-- Day of week of day number `d` (0 = Monday; day 0 = 0001-01-01 is a
Monday in the proleptic Gregorian calendar, as in Python `date.weekday`). -/
def dow (d : Nat) : Nat := d % 7

/-- 1-based day of month of the first Sunday of month `m` in year `y`. -/
def firstSundayOf (y m : Nat) : Nat :=
  1 + (6 + 7 - dow (toOrdinal y m 1)) % 7

/-- UTC offset (in seconds) of America/Chicago at the instant `t` seconds
since 0001-01-01 on the UTC scale. -/
def chicagoOffset (t : Int) : Int :=
  if t < 0 then -21600
  else
    let tn := t.toNat
    let y := (ord2ymd (tn / 86400)).1
    let dstStart := toOrdinal y 3 (firstSundayOf y 3 + 7) * 86400 + 8 * 3600
    let dstEnd := toOrdinal y 11 (firstSundayOf y 11) * 86400 + 7 * 3600
    if dstStart ≤ tn ∧ tn < dstEnd then -18000 else -21600

/-- Local Chicago second count of the UTC instant `t` (clamped at 0 below
the representable range; Python raises there, see `astimezoneChicago`). -/
def chicagoLocal (t : Int) : Nat := (t + chicagoOffset t).toNat

/-- `aware.astimezone(pytz.timezone("America/Chicago"))` on the instant `t`
(seconds since 0001-01-01, UTC scale): the resulting civil time, or `none`
when the result falls outside the range Python `datetime` can represent
(Python raises `OverflowError`, caught by the surrounding `except`). -/
def astimezoneChicago (t : Int) : Option Civil :=
  let loc := t + chicagoOffset t
  if 0 ≤ loc ∧ loc < (maxSeconds : Int) then some (civilOfSeconds loc.toNat)
  else none

/-! ## `datetime.datetime.fromisoformat`

The parser of CPython (3.7-3.10): a mandatory `YYYY-MM-DD` date; optionally
one separator character (any character is accepted at position 10) followed
by a time `HH[:MM[:SS[.fff|.ffffff]]]`, optionally followed by a UTC offset
introduced by the first `-` (or, failing that, the first `+`) of the time
string, of the form `HH:MM[:SS[.ffffff]]`.  Out-of-range components are
rejected (the `date`/`time`/`timezone` constructors raise `ValueError`).
Fractional seconds are validated and discarded: they never reach the
`strftime` fields used for filenames. -/

/-- A parsed timezone-aware-or-naive date-time.  `tzOffset` is the UTC
offset in seconds when the string carried one. -/
structure ParsedDT where
  year : Nat
  month : Nat
  day : Nat
  hour : Nat
  minute : Nat
  second : Nat
  tzOffset : Option Int
  deriving Repr, DecidableEq

/-- Value of a decimal digit character. -/
def digitVal (c : Char) : Option Nat :=
  if 48 ≤ c.toNat ∧ c.toNat ≤ 57 then some (c.toNat - 48) else none

/-- Two-digit decimal field. -/
def digit2 (a b : Char) : Option Nat := do
  let x ← digitVal a
  let y ← digitVal b
  pure (10 * x + y)

/-- Four-digit decimal field. -/
def digit4 (a b c d : Char) : Option Nat := do
  let x ← digit2 a b
  let y ← digit2 c d
  pure (100 * x + y)

/-- `HH[:MM[:SS[.fff|.ffffff]]]` with constructor range validation;
fraction digits are checked and discarded. -/
def parseTimeCore (l : List Char) : Option (Nat × Nat × Nat) :=
  match l with
  | [h1, h2] => do
      let hh ← digit2 h1 h2
      guard (hh ≤ 23)
      pure (hh, 0, 0)
  | [h1, h2, ':', m1, m2] => do
      let hh ← digit2 h1 h2
      let mm ← digit2 m1 m2
      guard (hh ≤ 23 ∧ mm ≤ 59)
      pure (hh, mm, 0)
  | [h1, h2, ':', m1, m2, ':', s1, s2] => do
      let hh ← digit2 h1 h2
      let mm ← digit2 m1 m2
      let ss ← digit2 s1 s2
      guard (hh ≤ 23 ∧ mm ≤ 59 ∧ ss ≤ 59)
      pure (hh, mm, ss)
  | [h1, h2, ':', m1, m2, ':', s1, s2, '.', f1, f2, f3] => do
      let hh ← digit2 h1 h2
      let mm ← digit2 m1 m2
      let ss ← digit2 s1 s2
      let _ ← digit2 f1 f2
      let _ ← digitVal f3
      guard (hh ≤ 23 ∧ mm ≤ 59 ∧ ss ≤ 59)
      pure (hh, mm, ss)
  | [h1, h2, ':', m1, m2, ':', s1, s2, '.', f1, f2, f3, f4, f5, f6] => do
      let hh ← digit2 h1 h2
      let mm ← digit2 m1 m2
      let ss ← digit2 s1 s2
      let _ ← digit2 f1 f2
      let _ ← digit2 f3 f4
      let _ ← digit2 f5 f6
      guard (hh ≤ 23 ∧ mm ≤ 59 ∧ ss ≤ 59)
      pure (hh, mm, ss)
  | _ => none

/-- UTC offset body `HH:MM[:SS[.ffffff]]` after the sign, in seconds. -/
def parseTzBody (sign : Int) (l : List Char) : Option Int :=
  match l with
  | [h1, h2, ':', m1, m2] => do
      let hh ← digit2 h1 h2
      let mm ← digit2 m1 m2
      guard (hh ≤ 23 ∧ mm ≤ 59)
      pure (sign * (hh * 3600 + mm * 60))
  | [h1, h2, ':', m1, m2, ':', s1, s2] => do
      let hh ← digit2 h1 h2
      let mm ← digit2 m1 m2
      let ss ← digit2 s1 s2
      guard (hh ≤ 23 ∧ mm ≤ 59 ∧ ss ≤ 59)
      pure (sign * (hh * 3600 + mm * 60 + ss))
  | [h1, h2, ':', m1, m2, ':', s1, s2, '.', f1, f2, f3, f4, f5, f6] => do
      let hh ← digit2 h1 h2
      let mm ← digit2 m1 m2
      let ss ← digit2 s1 s2
      let _ ← digit2 f1 f2
      let _ ← digit2 f3 f4
      let _ ← digit2 f5 f6
      guard (hh ≤ 23 ∧ mm ≤ 59 ∧ ss ≤ 59)
      pure (sign * (hh * 3600 + mm * 60 + ss))
  | _ => none

/-- Split a list at the first occurrence of `c`; the separator is dropped. -/
def splitAtChar (c : Char) : List Char → Option (List Char × List Char)
  | [] => none
  | x :: xs =>
    if x = c then some ([], xs)
    else (splitAtChar c xs).map (fun p => (x :: p.1, p.2))

/-- Time-of-day and optional UTC offset of the portion after the date
separator, locating the offset at the first `-`, else the first `+`. -/
def parseTimeAndTz (tstr : List Char) : Option ((Nat × Nat × Nat) × Option Int) :=
  match splitAtChar '-' tstr with
  | some (timestr, tzrest) => do
      let t ← parseTimeCore timestr
      let off ← parseTzBody (-1) tzrest
      pure (t, some off)
  | none =>
    match splitAtChar '+' tstr with
    | some (timestr, tzrest) => do
        let t ← parseTimeCore timestr
        let off ← parseTzBody 1 tzrest
        pure (t, some off)
    | none => do
        let t ← parseTimeCore tstr
        pure (t, none)

/-- `datetime.datetime.fromisoformat` on the character list of the input. -/
def fromisoformatChars : List Char → Option ParsedDT
  | y1 :: y2 :: y3 :: y4 :: '-' :: m1 :: m2 :: '-' :: d1 :: d2 :: rest => do
      let y ← digit4 y1 y2 y3 y4
      let m ← digit2 m1 m2
      let d ← digit2 d1 d2
      guard (1 ≤ y ∧ 1 ≤ m ∧ m ≤ 12 ∧ 1 ≤ d ∧ d ≤ daysInMonth y m)
      match rest with
      | [] => pure ⟨y, m, d, 0, 0, 0, none⟩
      | _sep :: tstr => do
          let r ← parseTimeAndTz tstr
          pure ⟨y, m, d, r.1.1, r.1.2.1, r.1.2.2, r.2⟩
  | _ => none

/-- `datetime.datetime.fromisoformat`: `none` models `ValueError`. -/
def fromisoformat (s : String) : Option ParsedDT :=
  fromisoformatChars s.data

/-- The instant denoted by a parsed date-time, in seconds since
0001-01-01 on the UTC scale.  A naive date-time (no offset in the string)
is interpreted in the system local timezone, modelled as the fixed offset
`systemOffset` (this is what `astimezone` does to naive values). -/
def utcSeconds (dt : ParsedDT) (systemOffset : Int) : Int :=
  ((toOrdinal dt.year dt.month dt.day * 86400
      + dt.hour * 3600 + dt.minute * 60 + dt.second : Nat) : Int)
    - dt.tzOffset.getD systemOffset

/-! ## The exporter state machine (`export_data`, lines 27-87) -/

/-- A lifelog record as consumed by the script: only the two fields the
exporter reads.  `none` models an absent key (`dict.get` returns `None`). -/
structure Record where
  startTime : Option String
  markdown : Option String
  deriving Repr, DecidableEq

/-- Python truthiness of `lifelog.get("startTime")` (line 55): `None` and
the empty string are falsy. -/
def truthy : Option String → Bool
  | some s => !s.data.isEmpty
  | none => false

/-- Console output, one constructor per `print` site.  The diagnostic
dumps of lines 42-48 are represented by `firstKeys` and `structureDump`
(their printed payload is not needed by any property). -/
inductive LogEntry where
  | fetching : LogEntry
  | header (n : Nat) : LogEntry
  | firstKeys : LogEntry
  | structureDump (i : Nat) : LogEntry
  | exported (i n : Nat) (filename : String) : LogEntry
  | parseError (i n : Nat) (timestamp : String) : LogEntry
  | noTimestamp (i n : Nat) (filename : String) : LogEntry
  | complete : LogEntry
  deriving Repr, DecidableEq

/-- The observable state: the record list (threaded so that its
preservation is expressible), the export directory flag, the files (by
name), the journal of file-write events, and the console log. -/
structure FsState where
  records : List Record
  dirExists : Bool
  files : String → Option String
  writes : List String
  log : List LogEntry

/-- Directory contents after creating or overwriting one file. -/
def updateFile (f : String → Option String) (name content : String) :
    String → Option String :=
  fun k => if k = name then some content else f k

/-- `open(filepath, "w")` followed by `f.write(content)`: creates or
overwrites the named file and records the write event. -/
def writeFile (st : FsState) (name content : String) : FsState :=
  { st with
    files := updateFile st.files name content,
    writes := st.writes ++ [name] }

/-- One iteration of the loop of lines 51-87 on the record at 1-based
index `i` of `n`.  `sys` is the fixed system-local UTC offset (used only
for naive timestamps); `now j` is the current instant when record `j` is
processed (seconds since 0001-01-01, UTC scale). -/
def processRecord (sys : Int) (now : Nat → Int) (i n : Nat) (r : Record)
    (st : FsState) : FsState :=
  let timestampStr := r.startTime
  if truthy timestampStr then
    let ts := timestampStr.getD ""
    match fromisoformat ts with
    | some startTime =>
      match astimezoneChicago (utcSeconds startTime sys) with
      | some civ =>
        let filename := fmtCivil civ ++ ".md"
        let st := writeFile st filename (r.markdown.getD "")
        { st with log := st.log ++ [.exported i n filename] }
      | none =>
        { st with log := st.log ++ [.parseError i n ts] }
    | none =>
      { st with log := st.log ++ [.parseError i n ts] }
  else
    let filename :=
      fmtCivil (civilOfSeconds (chicagoLocal (now i))) ++ "-" ++ decStr i ++ ".md"
    let st := writeFile st filename (r.markdown.getD "")
    { st with log := st.log ++ [.noTimestamp i n filename] }

/-- The loop of lines 51-87, starting at 1-based index `i`. -/
def exportLoop (sys : Int) (now : Nat → Int) (n : Nat) :
    Nat → List Record → FsState → FsState
  | _, [], st => st
  | i, r :: rs, st => exportLoop sys now n (i + 1) rs (processRecord sys now i n r st)

/-- Console entries of the diagnostic block of lines 41-48 (executed only
when the list is nonempty). -/
def debugLog (l : List Record) : List LogEntry :=
  if l.isEmpty then []
  else .firstKeys :: (List.range (min 3 l.length)).map (fun j => .structureDump (j + 1))

/-- `export_data(lifelogs)` (lines 27-87): create the export directory,
print the banner and diagnostics, then run the per-record loop. -/
def export_data (sys : Int) (now : Nat → Int) (st : FsState) : FsState :=
  let st1 := { st with
    dirExists := true,
    log := st.log ++ [.header st.records.length] ++ debugLog st.records }
  exportLoop sys now st1.records.length 1 st1.records st1

/-- `main()` after `get_lifelogs` has returned `fetched` (lines 89-104):
the fetch banner, the export, and the completion message. -/
def mainAfterFetch (sys : Int) (now : Nat → Int) (fetched : List Record) : FsState :=
  let st : FsState :=
    { records := fetched, dirExists := false, files := fun _ => none,
      writes := [], log := [.fetching] }
  let st := export_data sys now st
  { st with log := st.log ++ [.complete] }

/-- Initial state: the fetched records, no export directory, empty
directory contents, no console output. -/
def mkState (l : List Record) : FsState :=
  ⟨l, false, fun _ => none, [], []⟩

/-! ## Normal form of a run

The loop body never reads the directory contents, so a run is determined
by a `now`-and-record-dependent sequence of writes and log entries.  The
following definitions compute those sequences and the lemmas below prove
that a run equals their replay. -/

/-- Filename derived from a record whose `startTime` is truthy: `some`
exactly when both the parse and the timezone conversion succeed. -/
def validName (sys : Int) (r : Record) : Option String :=
  (fromisoformat (r.startTime.getD "")).bind (fun dt =>
    (astimezoneChicago (utcSeconds dt sys)).map (fun civ => fmtCivil civ ++ ".md"))

/-- Fallback filename for the record at 1-based index `i`: current time
in Chicago plus the index. -/
def fallbackName (now : Nat → Int) (i : Nat) : String :=
  fmtCivil (civilOfSeconds (chicagoLocal (now i))) ++ "-" ++ decStr i ++ ".md"

/-- The filename the record at index `i` is written to, if any. -/
def recordName (sys : Int) (now : Nat → Int) (i : Nat) (r : Record) :
    Option String :=
  if truthy r.startTime then validName sys r else some (fallbackName now i)

/-- The write event the record at index `i` produces, if any. -/
def recordWrite (sys : Int) (now : Nat → Int) (i : Nat) (r : Record) :
    Option (String × String) :=
  (recordName sys now i r).map (fun nm => (nm, r.markdown.getD ""))

/-- The progress line the record at index `i` of `n` produces. -/
def recordLog (sys : Int) (now : Nat → Int) (i n : Nat) (r : Record) : LogEntry :=
  if truthy r.startTime then
    match validName sys r with
    | some nm => .exported i n nm
    | none => .parseError i n (r.startTime.getD "")
  else .noTimestamp i n (fallbackName now i)

/-- Write events of the loop over `rs` starting at index `i`. -/
def writeSeqFrom (sys : Int) (now : Nat → Int) : Nat → List Record → List (String × String)
  | _, [] => []
  | i, r :: rs =>
    (recordWrite sys now i r).toList ++ writeSeqFrom sys now (i + 1) rs

/-- Progress lines of the loop over `rs` starting at index `i`. -/
def logSeqFrom (sys : Int) (now : Nat → Int) (n : Nat) : Nat → List Record → List LogEntry
  | _, [] => []
  | i, r :: rs => recordLog sys now i n r :: logSeqFrom sys now n (i + 1) rs

/-- Replay a sequence of write events on directory contents. -/
def applyWrites : List (String × String) → (String → Option String) →
    (String → Option String)
  | [], f => f
  | w :: ws, f => applyWrites ws (updateFile f w.1 w.2)

/-- Left-biased choice on optional contents. -/
def orF (x y : Option String) : Option String :=
  match x with
  | some v => some v
  | none => y

/-- Content the replay of `ws` leaves at key `k`: the last write to `k`. -/
def lookupLast : List (String × String) → String → Option String
  | [], _ => none
  | w :: ws, k =>
    orF (lookupLast ws k) (if k = w.1 then some w.2 else none)

theorem applyWrites_apply (ws : List (String × String)) :
    ∀ (f : String → Option String) (k : String),
      applyWrites ws f k = orF (lookupLast ws k) (f k) := by
  induction ws with
  | nil => intro f k; rfl
  | cons w ws ih =>
    intro f k
    show applyWrites ws (updateFile f w.1 w.2) k = _
    rw [ih]
    cases h : lookupLast ws k with
    | some v => simp [lookupLast, orF, h]
    | none =>
      simp only [lookupLast, orF, h, updateFile]
      by_cases hk : k = w.1 <;> simp [hk]

theorem applyWrites_append (ws₁ ws₂ : List (String × String)) :
    ∀ f, applyWrites (ws₁ ++ ws₂) f = applyWrites ws₂ (applyWrites ws₁ f) := by
  induction ws₁ with
  | nil => intro f; rfl
  | cons w ws ih => intro f; simp [applyWrites, ih]

/-- Replaying the same write events twice is the same as replaying them
once: the second replay only overwrites files with the contents they
already have. -/
theorem applyWrites_replay (ws : List (String × String)) (f : String → Option String) :
    applyWrites ws (applyWrites ws f) = applyWrites ws f := by
  funext k
  rw [applyWrites_apply, applyWrites_apply]
  cases lookupLast ws k <;> rfl

/-- One loop iteration, decomposed into its write event and log entry. -/
theorem processRecord_eq (sys : Int) (now : Nat → Int) (i n : Nat) (r : Record)
    (st : FsState) :
    processRecord sys now i n r st =
      { st with
        files := applyWrites (recordWrite sys now i r).toList st.files,
        writes := st.writes ++ ((recordWrite sys now i r).toList.map Prod.fst),
        log := st.log ++ [recordLog sys now i n r] } := by
  obtain ⟨recs, dir, files, writes, log⟩ := st
  show (if truthy r.startTime then _ else _) = _
  by_cases htr : truthy r.startTime
  · simp only [processRecord, recordWrite, recordName, recordLog, htr, if_true]
    cases hp : fromisoformat (r.startTime.getD "") with
    | none => simp [validName, hp, applyWrites]
    | some dt =>
      cases ha : astimezoneChicago (utcSeconds dt sys) with
      | none => simp [validName, hp, ha, applyWrites]
      | some civ => simp [validName, hp, ha, writeFile, applyWrites]
  · simp [processRecord, recordWrite, recordName, recordLog, htr, writeFile,
      applyWrites, fallbackName]

/-- The loop is the replay of its write sequence plus its log sequence. -/
theorem exportLoop_eq (sys : Int) (now : Nat → Int) (n : Nat) (rs : List Record) :
    ∀ (i : Nat) (st : FsState),
      exportLoop sys now n i rs st =
        { st with
          files := applyWrites (writeSeqFrom sys now i rs) st.files,
          writes := st.writes ++ (writeSeqFrom sys now i rs).map Prod.fst,
          log := st.log ++ logSeqFrom sys now n i rs } := by
  induction rs with
  | nil =>
    intro i st
    obtain ⟨recs, dir, files, writes, log⟩ := st
    simp [exportLoop, writeSeqFrom, logSeqFrom, applyWrites]
  | cons r rs ih =>
    intro i st
    show exportLoop sys now n (i + 1) rs (processRecord sys now i n r st) = _
    rw [ih, processRecord_eq]
    obtain ⟨recs, dir, files, writes, log⟩ := st
    simp [writeSeqFrom, logSeqFrom, applyWrites_append]

/-- A whole `export_data` run, in normal form. -/
theorem export_data_eq (sys : Int) (now : Nat → Int) (st : FsState) :
    export_data sys now st =
      { st with
        dirExists := true,
        files := applyWrites (writeSeqFrom sys now 1 st.records) st.files,
        writes := st.writes ++ (writeSeqFrom sys now 1 st.records).map Prod.fst,
        log := st.log ++ [.header st.records.length] ++ debugLog st.records
          ++ logSeqFrom sys now st.records.length 1 st.records } := by
  show exportLoop sys now _ 1 _ _ = _
  rw [exportLoop_eq]

/-! ## Shape of the generated filenames

Valid-timestamp filenames are 22 characters (`YYYY-MM-DD-HH-MM-SS.md`);
fallback filenames are at least 24 (`YYYY-MM-DD-HH-MM-SS-i.md`).  These
facts, together with injectivity of decimal rendering, separate the two
name families and separate fallback names from one another. -/

theorem decDigitsAux_irrel :
    ∀ (fuel fuel' n : Nat), n ≤ fuel → n ≤ fuel' →
      decDigitsAux fuel n = decDigitsAux fuel' n := by
  intro fuel
  induction fuel with
  | zero =>
    intro fuel' n h1 _
    have hn : n = 0 := by omega
    subst hn
    cases fuel' with
    | zero => rfl
    | succ f => show _ = (if (0 : Nat) < 10 then _ else _); rw [if_pos (by omega)]; rfl
  | succ fuel ih =>
    intro fuel' n h1 h2
    by_cases h10 : n < 10
    · show (if n < 10 then _ else _) = _
      rw [if_pos h10]
      cases fuel' with
      | zero =>
        have hn : n = 0 := by omega
        subst hn
        rfl
      | succ f => show _ = (if n < 10 then _ else _); rw [if_pos h10]
    · cases fuel' with
      | zero => omega
      | succ f =>
        show (if n < 10 then _ else _) = (if n < 10 then _ else _)
        rw [if_neg h10, if_neg h10]
        have hd : n / 10 < n := Nat.div_lt_self (by omega) (by omega)
        rw [ih f (n / 10) (by omega) (by omega)]


theorem decDigits_unfold (n : Nat) :
    decDigits n =
      if n < 10 then [digitChar n]
      else decDigits (n / 10) ++ [digitChar (n % 10)] := by
  unfold decDigits
  cases n with
  | zero => rw [if_pos (by omega)]; rfl
  | succ m =>
    show (if m + 1 < 10 then _ else _) = _
    by_cases h10 : m + 1 < 10
    · rw [if_pos h10, if_pos h10]
    · rw [if_neg h10, if_neg h10]
      have hd : (m + 1) / 10 < m + 1 := Nat.div_lt_self (by omega) (by omega)
      rw [decDigitsAux_irrel m ((m + 1) / 10) ((m + 1) / 10) (by omega) (by omega)]


theorem decDigits_of_lt {n : Nat} (h : n < 10) : decDigits n = [digitChar n] := by
  rw [decDigits_unfold, if_pos h]


theorem decDigits_of_ge {n : Nat} (h : ¬ n < 10) :
    decDigits n = decDigits (n / 10) ++ [digitChar (n % 10)] := by
  rw [decDigits_unfold, if_neg h]


theorem decDigits_length_pos (n : Nat) : 1 ≤ (decDigits n).length := by
  rw [decDigits_unfold]
  split <;> simp

theorem decDigits_length_le :
    ∀ (k n : Nat), 1 ≤ k → n < 10 ^ k → (decDigits n).length ≤ k := by
  intro k
  induction k with
  | zero => omega
  | succ k ih =>
    intro n _ hn
    by_cases h10 : n < 10
    · rw [decDigits_of_lt h10]; simp
    · rw [decDigits_of_ge h10]
      have hk : 1 ≤ k := by
        by_contra hk0
        have : k = 0 := by omega
        subst this
        simp [pow_succ] at hn
        omega
      have hdiv : n / 10 < 10 ^ k := by
        rw [Nat.div_lt_iff_lt_mul (by omega)]
        calc n < 10 ^ (k + 1) := hn
        _ = 10 ^ k * 10 := by rw [pow_succ]
      have := ih (n / 10) hk hdiv
      simp only [List.length_append, List.length_cons, List.length_nil]
      omega

theorem digitChar_inj :
    ∀ a < 10, ∀ b < 10, digitChar a = digitChar b → a = b := by decide

theorem decDigits_inj : ∀ (n m : Nat), decDigits n = decDigits m → n = m := by
  intro n
  induction n using Nat.strong_induction_on with
  | _ n ih =>
    intro m h
    by_cases hn : n < 10 <;> by_cases hm : m < 10
    · rw [decDigits_of_lt hn, decDigits_of_lt hm] at h
      exact digitChar_inj n hn m hm (by injection h)
    · rw [decDigits_of_lt hn, decDigits_of_ge hm] at h
      have : (1 : Nat) = (decDigits (m / 10)).length + 1 := by
        calc (1 : Nat) = ([digitChar n] : List Char).length := rfl
        _ = ((decDigits (m / 10)) ++ [digitChar (m % 10)]).length := by rw [h]
        _ = (decDigits (m / 10)).length + 1 := by simp
      have := decDigits_length_pos (m / 10)
      omega
    · rw [decDigits_of_ge hn, decDigits_of_lt hm] at h
      have : (decDigits (n / 10)).length + 1 = 1 := by
        calc (decDigits (n / 10)).length + 1
            = ((decDigits (n / 10)) ++ [digitChar (n % 10)]).length := by simp
        _ = ([digitChar m] : List Char).length := by rw [h]
        _ = 1 := rfl
      have := decDigits_length_pos (n / 10)
      omega
    · rw [decDigits_of_ge hn, decDigits_of_ge hm] at h
      obtain ⟨h1, h2⟩ := List.append_inj' h (by simp)
      have hmod : n % 10 = m % 10 :=
        digitChar_inj (n % 10) (Nat.mod_lt n (by omega)) (m % 10)
          (Nat.mod_lt m (by omega)) (by injection h2)
      have hdivlt : n / 10 < n := Nat.div_lt_self (by omega) (by omega)
      have hdiv : n / 10 = m / 10 := ih (n / 10) hdivlt (m / 10) h1
      omega

theorem pad_data (w n : Nat) :
    (pad w n).data =
      List.replicate (w - (decDigits n).length) (digitChar 0) ++ decDigits n := by
  simp [pad, decStr, String.data_append]

theorem pad_length (w n : Nat) (h : (decDigits n).length ≤ w) :
    (pad w n).data.length = w := by
  rw [pad_data]
  simp
  omega

/-- Components in `strftime` field range render to exactly 19 characters. -/
theorem fmtCivil_length (c : Civil) (hy : c.year ≤ 9999) (hm : c.month ≤ 99)
    (hd : c.day ≤ 99) (hh : c.hour ≤ 99) (hmi : c.minute ≤ 99)
    (hs : c.second ≤ 99) : (fmtCivil c).data.length = 19 := by
  have l4 : (decDigits c.year).length ≤ 4 :=
    decDigits_length_le 4 c.year (by omega) (by omega)
  have lm : (decDigits c.month).length ≤ 2 :=
    decDigits_length_le 2 c.month (by omega) (by omega)
  have ld : (decDigits c.day).length ≤ 2 :=
    decDigits_length_le 2 c.day (by omega) (by omega)
  have lh : (decDigits c.hour).length ≤ 2 :=
    decDigits_length_le 2 c.hour (by omega) (by omega)
  have lmi : (decDigits c.minute).length ≤ 2 :=
    decDigits_length_le 2 c.minute (by omega) (by omega)
  have ls : (decDigits c.second).length ≤ 2 :=
    decDigits_length_le 2 c.second (by omega) (by omega)
  simp only [fmtCivil, String.data_append, List.length_append,
    pad_length _ _ l4, pad_length _ _ lm, pad_length _ _ ld,
    pad_length _ _ lh, pad_length _ _ lmi, pad_length _ _ ls]
  rfl

set_option maxRecDepth 4000 in
/-- The month scan returns a month at most 12 and a day at most 31
(common-year February). -/
theorem monthFromDoy28_le :
    ∀ doy < 365, (monthFromDoy 28 doy).1 ≤ 12 ∧ (monthFromDoy 28 doy).2 ≤ 31 := by
  decide

set_option maxRecDepth 4000 in
/-- The month scan returns a month at most 12 and a day at most 31
(leap-year February). -/
theorem monthFromDoy29_le :
    ∀ doy < 365, (monthFromDoy 29 doy).1 ≤ 12 ∧ (monthFromDoy 29 doy).2 ≤ 31 := by
  decide

/-- Within the representable day range, `ord2ymd` yields a year at most
9999, a month at most 12 and a day at most 31. -/
theorem ord2ymd_le (n y m d : Nat) (hn : n < 3652059)
    (h : ord2ymd n = (y, m, d)) : y ≤ 9999 ∧ m ≤ 12 ∧ d ≤ 31 := by
  have hdoy : n % 146097 % 36524 % 1461 % 365 < 365 := Nat.mod_lt _ (by omega)
  simp only [ord2ymd] at h
  split_ifs at h with hAdj hLeap
  · injection h with h1 h2
    injection h2 with h2 h3
    omega
  · injection h with h1 h2
    injection h2 with h2 h3
    have hmd := monthFromDoy29_le _ hdoy
    omega
  · injection h with h1 h2
    injection h2 with h2 h3
    have hmd := monthFromDoy28_le _ hdoy
    omega

/-- Bounds on the civil time of an in-range second count. -/
theorem civilOfSeconds_bounds (t : Nat) (h : t < maxSeconds) :
    (civilOfSeconds t).year ≤ 9999 ∧ (civilOfSeconds t).month ≤ 99 ∧
      (civilOfSeconds t).day ≤ 99 ∧ (civilOfSeconds t).hour ≤ 99 ∧
      (civilOfSeconds t).minute ≤ 99 ∧ (civilOfSeconds t).second ≤ 99 := by
  have hmax : maxSeconds = 3652059 * 86400 := by decide
  have hday : t / 86400 < 3652059 := by omega
  rcases hyp : ord2ymd (t / 86400) with ⟨y, m, d⟩
  have hb := ord2ymd_le (t / 86400) y m d hday hyp
  have hc : civilOfSeconds t =
      ⟨y, m, d, t % 86400 / 3600, t % 86400 % 3600 / 60, t % 86400 % 60⟩ := by
    unfold civilOfSeconds
    rw [hyp]
  rw [hc]
  refine ⟨?_, ?_, ?_, ?_, ?_, ?_⟩
  · show y ≤ 9999
    omega
  · show m ≤ 99
    omega
  · show d ≤ 99
    omega
  · show t % 86400 / 3600 ≤ 99
    omega
  · show t % 86400 % 3600 / 60 ≤ 99
    omega
  · show t % 86400 % 60 ≤ 99
    omega

theorem astimezoneChicago_some_bounds (t : Int) (civ : Civil)
    (h : astimezoneChicago t = some civ) :
    civ.year ≤ 9999 ∧ civ.month ≤ 99 ∧ civ.day ≤ 99 ∧ civ.hour ≤ 99 ∧
      civ.minute ≤ 99 ∧ civ.second ≤ 99 := by
  simp only [astimezoneChicago] at h
  split_ifs at h with hr
  · injection h with h1
    subst h1
    exact civilOfSeconds_bounds _ (by omega)

/-- A filename derived from a valid timestamp has exactly 22 characters:
19 for the date-time portion and 3 for `.md`. -/
theorem validName_length (sys : Int) (r : Record) (nm : String)
    (h : validName sys r = some nm) : nm.data.length = 22 := by
  unfold validName at h
  rcases hp : fromisoformat (r.startTime.getD "") with _ | dt <;> rw [hp] at h
  · simp at h
  · simp at h
    obtain ⟨civ, ha, h2⟩ := h
    subst h2
    obtain ⟨b1, b2, b3, b4, b5, b6⟩ := astimezoneChicago_some_bounds _ _ ha
    rw [String.data_append, List.length_append, fmtCivil_length civ b1 b2 b3 b4 b5 b6]
    rfl

theorem fallbackName_data (now : Nat → Int) (i : Nat) :
    (fallbackName now i).data =
      (fmtCivil (civilOfSeconds (chicagoLocal (now i)))).data ++
        "-".data ++ decDigits i ++ ".md".data := by
  simp [fallbackName, String.data_append, decStr]

/-- A fallback filename has at least 24 characters, provided the current
instant is within the representable range. -/
theorem fallbackName_length (now : Nat → Int) (i : Nat)
    (h : chicagoLocal (now i) < maxSeconds) :
    (fallbackName now i).data.length = 23 + (decDigits i).length := by
  obtain ⟨b1, b2, b3, b4, b5, b6⟩ := civilOfSeconds_bounds _ h
  rw [fallbackName_data]
  simp [List.length_append, fmtCivil_length _ b1 b2 b3 b4 b5 b6]
  omega

/-- Valid-timestamp filenames never coincide with fallback filenames. -/
theorem validName_ne_fallbackName (sys : Int) (now : Nat → Int) (r : Record)
    (nm : String) (i : Nat) (hv : validName sys r = some nm)
    (hn : chicagoLocal (now i) < maxSeconds) : nm ≠ fallbackName now i := by
  intro hcontra
  have h1 := validName_length sys r nm hv
  have h2 := fallbackName_length now i hn
  have h3 := decDigits_length_pos i
  rw [hcontra] at h1
  omega

/-- Fallback filenames for distinct indices are distinct, even across
different current instants. -/
theorem fallbackName_inj (now now2 : Nat → Int) (i j : Nat)
    (hi : chicagoLocal (now i) < maxSeconds)
    (hj : chicagoLocal (now2 j) < maxSeconds)
    (h : fallbackName now i = fallbackName now2 j) : i = j := by
  obtain ⟨a1, a2, a3, a4, a5, a6⟩ := civilOfSeconds_bounds _ hi
  obtain ⟨b1, b2, b3, b4, b5, b6⟩ := civilOfSeconds_bounds _ hj
  have hd : (fallbackName now i).data = (fallbackName now2 j).data := by rw [h]
  rw [fallbackName_data, fallbackName_data] at hd
  simp only [List.append_assoc] at hd
  obtain ⟨-, hd2⟩ := List.append_inj hd
    (by rw [fmtCivil_length _ a1 a2 a3 a4 a5 a6, fmtCivil_length _ b1 b2 b3 b4 b5 b6])
  obtain ⟨-, hd3⟩ := List.append_inj hd2 rfl
  exact decDigits_inj i j (List.append_cancel_right hd3)

/-! ## Counting the files a run writes -/

/-- Whether the loop writes a file for record `r`: always, except when a
truthy `startTime` fails to parse or convert (the `except` path of lines
73-74 only prints). -/
def writesFile (sys : Int) (r : Record) : Bool :=
  if truthy r.startTime then (validName sys r).isSome else true

/-- The filenames derived from records with truthy, parseable, convertible
timestamps, in record order. -/
def validNames (sys : Int) (l : List Record) : List String :=
  l.filterMap (fun r => if truthy r.startTime then validName sys r else none)

/-- All the current instants a run can observe convert to representable
Chicago local times.  Python guarantees this: `datetime.now()` returns a
representable value and the exporter runs decades away from the year-9999
overflow boundary. -/
def nowOk (now : Nat → Int) : Prop :=
  ∀ j, chicagoLocal (now j) < maxSeconds

theorem recordWrite_isSome (sys : Int) (now : Nat → Int) (i : Nat) (r : Record) :
    (recordWrite sys now i r).isSome = writesFile sys r := by
  unfold recordWrite recordName writesFile
  split_ifs <;> simp

theorem writeSeqFrom_length (sys : Int) (now : Nat → Int) (rs : List Record) :
    ∀ i, (writeSeqFrom sys now i rs).length =
      (rs.filter (fun r => writesFile sys r)).length := by
  induction rs with
  | nil => intro i; rfl
  | cons r rs ih =>
    intro i
    show ((recordWrite sys now i r).toList ++ _).length = _
    rw [List.length_append, ih (i + 1)]
    have := recordWrite_isSome sys now i r
    cases hw : recordWrite sys now i r <;> rw [hw] at this <;>
      simp [List.filter_cons, ← this, Nat.add_comm]

theorem mem_writeSeq_names (sys : Int) (now : Nat → Int) :
    ∀ (rs : List Record) (i : Nat) (nm : String),
      nm ∈ (writeSeqFrom sys now i rs).map Prod.fst →
      ∃ j r', r' ∈ rs ∧ i ≤ j ∧ recordName sys now j r' = some nm := by
  intro rs
  induction rs with
  | nil => intro i nm h; simp [writeSeqFrom] at h
  | cons r rs ih =>
    intro i nm h
    rw [show writeSeqFrom sys now i (r :: rs) =
        (recordWrite sys now i r).toList ++ writeSeqFrom sys now (i + 1) rs from rfl,
      List.map_append, List.mem_append] at h
    rcases h with h | h
    · refine ⟨i, r, List.mem_cons_self r rs, le_refl i, ?_⟩
      unfold recordWrite at h
      cases hn : recordName sys now i r <;> rw [hn] at h <;> simp at h
      rw [h]
    · obtain ⟨j, r', hmem, hij, hnm⟩ := ih (i + 1) nm h
      exact ⟨j, r', List.mem_cons_of_mem r hmem, by omega, hnm⟩

/-- A valid-derived name of any record of `rs` occurs in `validNames`. -/
theorem validName_mem_validNames (sys : Int) (r' : Record) (rs : List Record)
    (hmem : r' ∈ rs) (ht : truthy r'.startTime = true) (nm : String)
    (h : validName sys r' = some nm) : nm ∈ validNames sys rs := by
  unfold validNames
  rw [List.mem_filterMap]
  exact ⟨r', hmem, by rw [ht, if_pos rfl, h]⟩

/-- The filenames written by a run are pairwise distinct, provided no two
valid-timestamp records derive the same filename and the observed current
instants are representable. -/
theorem writeSeq_names_nodup (sys : Int) (now : Nat → Int) :
    ∀ (rs : List Record) (i : Nat), (validNames sys rs).Nodup → nowOk now →
      ((writeSeqFrom sys now i rs).map Prod.fst).Nodup := by
  intro rs
  induction rs with
  | nil => intro i _ _; simp [writeSeqFrom]
  | cons r rs ih =>
    intro i hvn hnow
    rw [show writeSeqFrom sys now i (r :: rs) =
        (recordWrite sys now i r).toList ++ writeSeqFrom sys now (i + 1) rs from rfl,
      List.map_append]
    have hvn' : (validNames sys rs).Nodup := by
      unfold validNames at hvn ⊢
      rw [List.filterMap_cons] at hvn
      cases hcase : (if truthy r.startTime then validName sys r else none) <;>
        rw [hcase] at hvn
      · exact hvn
      · exact hvn.of_cons
    have htail := ih (i + 1) hvn' hnow
    cases hw : recordWrite sys now i r with
    | none => simpa using htail
    | some w =>
      simp only [Option.toList_some, List.map_cons, List.map_nil,
        List.singleton_append, List.nodup_cons]
      refine ⟨?_, htail⟩
      intro hmem
      obtain ⟨j, r', hmem', hij, hnm⟩ := mem_writeSeq_names sys now rs (i + 1) w.1 hmem
      unfold recordWrite at hw
      cases hn : recordName sys now i r with
      | none => rw [hn] at hw; simp at hw
      | some nm0 =>
        rw [hn] at hw
        simp at hw
        have hw1 : w.1 = nm0 := by rw [← hw]
        unfold recordName at hn hnm
        by_cases h1 : truthy r.startTime = true <;>
          by_cases h2 : truthy r'.startTime = true
        · rw [if_pos h1] at hn
          rw [if_pos h2] at hnm
          have htailmem : w.1 ∈ validNames sys rs :=
            validName_mem_validNames sys r' rs hmem' h2 _ hnm
          unfold validNames at hvn
          rw [List.filterMap_cons, if_pos h1, hn, List.nodup_cons] at hvn
          rw [hw1] at htailmem
          exact hvn.1 htailmem
        · rw [if_pos h1] at hn
          rw [if_neg h2] at hnm
          injection hnm with hnm
          have hne := validName_ne_fallbackName sys now r nm0 j (by rw [hn]) (hnow j)
          rw [hw1] at hnm
          exact hne hnm.symm
        · rw [if_neg h1] at hn
          rw [if_pos h2] at hnm
          injection hn with hn
          have hne := validName_ne_fallbackName sys now r' w.1 i hnm (hnow i)
          exact hne (by rw [hw1, ← hn])
        · rw [if_neg h1] at hn
          rw [if_neg h2] at hnm
          injection hn with hn
          injection hnm with hnm
          have : i = j := by
            refine fallbackName_inj now now i j (hnow i) (hnow j) ?_
            rw [hn, ← hw1, ← hnm]
          omega

/-! ## The zero-padded format, as the specification words it

The specification describes the filename stem as the converted timestamp
"formatted with zero-padded fields (`YYYY-MM-DD-HH-MM-SS`)".  The
definitions below render that description directly (pad with `0` up to the
field width); the refinement theorem for C3 proves the `strftime` model
used by the exporter agrees with it. -/

theorem decDigits_length_eq :
    ∀ (k n : Nat), 10 ^ k ≤ n → n < 10 ^ (k + 1) → (decDigits n).length = k + 1 := by
  intro k
  induction k with
  | zero =>
    intro n _ h2
    rw [decDigits_of_lt (by simpa using h2)]
    rfl
  | succ k ih =>
    intro n h1 h2
    have h10 : ¬ n < 10 := by
      have : (10 : Nat) ≤ 10 ^ (k + 1) := by
        calc (10 : Nat) = 10 ^ 1 := (pow_one 10).symm
        _ ≤ 10 ^ (k + 1) := Nat.pow_le_pow_right (by omega) (by omega)
      omega
    rw [decDigits_of_ge h10, List.length_append]
    have hd1 : 10 ^ k ≤ n / 10 := by
      rw [Nat.le_div_iff_mul_le (by omega)]
      calc 10 ^ k * 10 = 10 ^ (k + 1) := by rw [pow_succ]
      _ ≤ n := h1
    have hd2 : n / 10 < 10 ^ (k + 1) := by
      rw [Nat.div_lt_iff_lt_mul (by omega)]
      calc n < 10 ^ (k + 2) := h2
      _ = 10 ^ (k + 1) * 10 := by rw [pow_succ]
    rw [ih (n / 10) hd1 hd2]
    rfl

/-- The two-digit zero-padded field, as the specification words it. -/
def specZeroPad2 (n : Nat) : String :=
  if n < 10 then "0" ++ decStr n else decStr n

/-- The four-digit zero-padded field, as the specification words it. -/
def specZeroPad4 (n : Nat) : String :=
  if n < 10 then "000" ++ decStr n
  else if n < 100 then "00" ++ decStr n
  else if n < 1000 then "0" ++ decStr n
  else decStr n

/-- The date-time portion `YYYY-MM-DD-HH-MM-SS` of a filename, as the
specification words it. -/
def specDateTimePortion (c : Civil) : String :=
  specZeroPad4 c.year ++ "-" ++ specZeroPad2 c.month ++ "-" ++
    specZeroPad2 c.day ++ "-" ++ specZeroPad2 c.hour ++ "-" ++
    specZeroPad2 c.minute ++ "-" ++ specZeroPad2 c.second

theorem pad_two_eq_spec (n : Nat) (h : n ≤ 99) : pad 2 n = specZeroPad2 n := by
  apply String.ext
  unfold specZeroPad2
  by_cases h10 : n < 10
  · have hl : (decDigits n).length = 1 := by rw [decDigits_of_lt h10]; rfl
    rw [if_pos h10, pad_data, hl, String.data_append]
    rfl
  · have hl : (decDigits n).length = 2 :=
      decDigits_length_eq 1 n (by omega) (by omega)
    rw [if_neg h10, pad_data, hl]
    rfl

theorem pad_four_eq_spec (n : Nat) (h : n ≤ 9999) : pad 4 n = specZeroPad4 n := by
  apply String.ext
  unfold specZeroPad4
  by_cases h10 : n < 10
  · have hl : (decDigits n).length = 1 := by rw [decDigits_of_lt h10]; rfl
    rw [if_pos h10, pad_data, hl, String.data_append]
    rfl
  · by_cases h100 : n < 100
    · have hl : (decDigits n).length = 2 :=
        decDigits_length_eq 1 n (by omega) (by omega)
      rw [if_neg h10, if_pos h100, pad_data, hl, String.data_append]
      rfl
    · by_cases h1000 : n < 1000
      · have hl : (decDigits n).length = 3 :=
          decDigits_length_eq 2 n (by omega) (by omega)
        rw [if_neg h10, if_neg h100, if_pos h1000, pad_data, hl, String.data_append]
        rfl
      · have hl : (decDigits n).length = 4 :=
          decDigits_length_eq 3 n (by omega) (by omega)
        rw [if_neg h10, if_neg h100, if_neg h1000, pad_data, hl]
        rfl

/-- The exporter's `strftime` stem agrees with the zero-padded format the
specification describes, for components in field range. -/
theorem fmtCivil_eq_spec (c : Civil) (hy : c.year ≤ 9999) (hm : c.month ≤ 99)
    (hd : c.day ≤ 99) (hh : c.hour ≤ 99) (hmi : c.minute ≤ 99)
    (hs : c.second ≤ 99) : fmtCivil c = specDateTimePortion c := by
  unfold fmtCivil specDateTimePortion
  rw [pad_four_eq_spec _ hy, pad_two_eq_spec _ hm, pad_two_eq_spec _ hd,
    pad_two_eq_spec _ hh, pad_two_eq_spec _ hmi, pad_two_eq_spec _ hs]

/-! ## Projections of a run and of the log sequence -/

theorem export_data_records (sys : Int) (now : Nat → Int) (st : FsState) :
    (export_data sys now st).records = st.records := by
  rw [export_data_eq]

theorem export_data_writes (sys : Int) (now : Nat → Int) (st : FsState) :
    (export_data sys now st).writes =
      st.writes ++ (writeSeqFrom sys now 1 st.records).map Prod.fst := by
  rw [export_data_eq]

theorem export_data_files (sys : Int) (now : Nat → Int) (st : FsState) :
    (export_data sys now st).files =
      applyWrites (writeSeqFrom sys now 1 st.records) st.files := by
  rw [export_data_eq]

theorem export_data_log (sys : Int) (now : Nat → Int) (st : FsState) :
    (export_data sys now st).log =
      st.log ++ [.header st.records.length] ++ debugLog st.records
        ++ logSeqFrom sys now st.records.length 1 st.records := by
  rw [export_data_eq]

theorem logSeqFrom_length (sys : Int) (now : Nat → Int) (n : Nat) (rs : List Record) :
    ∀ i, (logSeqFrom sys now n i rs).length = rs.length := by
  induction rs with
  | nil => intro i; rfl
  | cons r rs ih =>
    intro i
    show (recordLog sys now i n r :: logSeqFrom sys now n (i + 1) rs).length = _
    rw [List.length_cons, ih (i + 1)]
    rfl

theorem logSeqFrom_get (sys : Int) (now : Nat → Int) (n : Nat) :
    ∀ (rs : List Record) (i j : Nat) (r : Record), rs[j]? = some r →
      (logSeqFrom sys now n i rs)[j]? = some (recordLog sys now (i + j) n r) := by
  intro rs
  induction rs with
  | nil => intro i j r h; simp at h
  | cons r0 rs ih =>
    intro i j r h
    have hu : logSeqFrom sys now n i (r0 :: rs) =
        recordLog sys now i n r0 :: logSeqFrom sys now n (i + 1) rs := rfl
    cases j with
    | zero =>
      simp only [List.getElem?_cons_zero, Option.some.injEq] at h
      subst h
      rw [hu, List.getElem?_cons_zero]
      rfl
    | succ j =>
      rw [List.getElem?_cons_succ] at h
      rw [hu, List.getElem?_cons_succ, ih (i + 1) j r h]
      congr 2
      omega

/-! ## Test fixtures

Concrete records and clock functions used by the concrete theorems: a
record with a present but unparseable timestamp, a record with no
timestamp, and the record of scenario A of the specification. -/

/-- A record whose `startTime` is present and nonempty but not parseable. -/
def badRecord : Record := ⟨some "not-a-date", some "x"⟩

/-- A record with no `startTime` field. -/
def noTimeRecord : Record := ⟨none, some "x"⟩

/-- The record of scenario A. -/
def scenarioARecord : Record := ⟨some "2025-03-18T15:41:44-05:00", some "Hello"⟩

/-- A clock frozen at the epoch of the instant scale (0001-01-01T00:00:00
UTC); its Chicago rendering is `0001-01-01-00-00-00` (clamped). -/
def nowZero : Nat → Int := fun _ => 0

/-- A clock frozen two days later (in Chicago wall-clock terms). -/
def nowLater : Nat → Int := fun _ => 2 * 86400 + 21600

/-! ## The claims -/

/-- **C1, counterexample.**  The claim states that a record whose
`startTime` is present but unparseable still gets exactly one output file,
named from the current time plus the record index.  On the code this is
false: the `except` branch of lines 73-74 only prints the error, so no
file at all is written for such a record — the run over the single record
`{"startTime": "not-a-date", "markdown": "x"}` performs zero writes. -/
theorem claim_C1_counterexample :
    (export_data 0 nowZero (mkState [badRecord])).writes = [] := by decide

/-- **C1, amended.**  For every record whose `startTime` is present and
nonempty but fails to parse as ISO-8601 (or to convert), export writes no
output file for that record: the state is unchanged except for a
parse-error progress line, and the loop continues.  The current-time-plus-
index fallback name is used only when `startTime` is absent or empty. -/
theorem claim_C1 (sys : Int) (now : Nat → Int) (i n : Nat) (r : Record)
    (st : FsState) (ht : truthy r.startTime = true)
    (hv : validName sys r = none) :
    processRecord sys now i n r st =
      { st with log := st.log ++ [LogEntry.parseError i n (r.startTime.getD "")] } := by
  obtain ⟨recs, dir, files, writes, log⟩ := st
  rw [processRecord_eq]
  unfold recordWrite recordName recordLog
  rw [ht, hv]
  simp [applyWrites]

/-- **C1, witness.**  The amended statement applied to the concrete record
`{"startTime": "not-a-date", "markdown": "x"}`. -/
theorem claim_C1_witness :
    truthy badRecord.startTime = true ∧ validName 0 badRecord = none ∧
      processRecord 0 nowZero 1 1 badRecord (mkState [badRecord]) =
        { mkState [badRecord] with log := [LogEntry.parseError 1 1 "not-a-date"] } := by
  refine ⟨by decide, by decide, ?_⟩
  rw [claim_C1 0 nowZero 1 1 badRecord (mkState [badRecord]) (by decide) (by decide)]
  rfl

/-- **C2, counterexample.**  The claim states that (absent valid-name
collisions) the number of files written equals the number of input
records.  On the code this fails for a record with a present but
unparseable `startTime`: one input record, zero files written. -/
theorem claim_C2_counterexample :
    (export_data 0 nowZero (mkState [badRecord])).writes.dedup.length ≠
      ([badRecord] : List Record).length := by decide

/-- **C2, amended.**  Assuming no two valid-timestamp records derive the
same filename (and current instants within the `datetime` range), the
number of distinct files written equals the number of records that are
either fallback-named (absent or empty `startTime`) or parse and convert
successfully.  Records with a present but unparseable `startTime`
contribute no file. -/
theorem claim_C2 (sys : Int) (now : Nat → Int) (l : List Record)
    (hvn : (validNames sys l).Nodup) (hnow : nowOk now) :
    (export_data sys now (mkState l)).writes.dedup.length =
      (l.filter (fun r => writesFile sys r)).length := by
  rw [export_data_writes]
  simp only [mkState, List.nil_append]
  rw [List.dedup_eq_self.mpr (writeSeq_names_nodup sys now l 1 hvn hnow),
    List.length_map]
  exact writeSeqFrom_length sys now l 1

/-- **C2, witness.**  The amended count applied to a two-record list with
one unparseable timestamp: one file for two records. -/
theorem claim_C2_witness :
    (validNames 0 [badRecord, noTimeRecord]).Nodup ∧ nowOk nowZero ∧
      (export_data 0 nowZero (mkState [badRecord, noTimeRecord])).writes.dedup.length =
        ([badRecord, noTimeRecord].filter (fun r => writesFile 0 r)).length := by
  have h1 : (validNames 0 [badRecord, noTimeRecord]).Nodup := by decide
  have h2 : nowOk nowZero := by
    intro j
    show chicagoLocal 0 < maxSeconds
    decide
  exact ⟨h1, h2, claim_C2 0 nowZero [badRecord, noTimeRecord] h1 h2⟩

/-- A parseable timestamp string is nonempty, hence truthy. -/
theorem fromisoformat_some_truthy (ts : String) (dt : ParsedDT)
    (hp : fromisoformat ts = some dt) : truthy (some ts) = true := by
  cases hd : ts.data with
  | nil =>
    have hnil : fromisoformatChars [] = none := rfl
    rw [fromisoformat, hd, hnil] at hp
    cases hp
  | cons c cs =>
    show (!ts.data.isEmpty) = true
    rw [hd]
    rfl

/-- **C3.**  For every record with a present, parseable `startTime` whose
conversion to America/Chicago is representable, the written filename is
exactly the converted civil time rendered in the zero-padded
`YYYY-MM-DD-HH-MM-SS` format the specification describes, followed by
`.md` (`specDateTimePortion` is built from the words of the
specification; the source offset is honoured because `utcSeconds`
subtracts the offset carried by the parsed value). -/
theorem claim_C3 (sys : Int) (now : Nat → Int) (i n : Nat) (r : Record)
    (st : FsState) (ts : String) (dt : ParsedDT) (civ : Civil)
    (hts : r.startTime = some ts)
    (hp : fromisoformat ts = some dt)
    (hc : astimezoneChicago (utcSeconds dt sys) = some civ) :
    (processRecord sys now i n r st).writes =
      st.writes ++ [specDateTimePortion civ ++ ".md"] := by
  have ht : truthy r.startTime = true := by
    rw [hts]
    exact fromisoformat_some_truthy ts dt hp
  have hgetD : r.startTime.getD "" = ts := by rw [hts]; rfl
  have hv : validName sys r = some (fmtCivil civ ++ ".md") := by
    unfold validName
    rw [hgetD, hp]
    show (astimezoneChicago (utcSeconds dt sys)).map _ = _
    rw [hc]
    rfl
  obtain ⟨b1, b2, b3, b4, b5, b6⟩ := astimezoneChicago_some_bounds _ _ hc
  obtain ⟨recs, dir, files, writes, log⟩ := st
  rw [processRecord_eq]
  unfold recordWrite recordName
  rw [ht, hv]
  simp [fmtCivil_eq_spec civ b1 b2 b3 b4 b5 b6]

/-- **C3, witness.**  The refinement applied to the scenario-A record:
parsing, conversion and the spec-format filename, concretely. -/
theorem claim_C3_witness :
    scenarioARecord.startTime = some "2025-03-18T15:41:44-05:00" ∧
      fromisoformat "2025-03-18T15:41:44-05:00" =
        some (⟨2025, 3, 18, 15, 41, 44, some (-18000)⟩ : ParsedDT) ∧
      astimezoneChicago (utcSeconds ⟨2025, 3, 18, 15, 41, 44, some (-18000)⟩ 0) =
        some (⟨2025, 3, 18, 15, 41, 44⟩ : Civil) ∧
      (processRecord 0 nowZero 1 1 scenarioARecord (mkState [])).writes =
        [] ++ [specDateTimePortion ⟨2025, 3, 18, 15, 41, 44⟩ ++ ".md"] := by
  refine ⟨rfl, by decide, by decide, ?_⟩
  exact claim_C3 0 nowZero 1 1 scenarioARecord (mkState [])
    "2025-03-18T15:41:44-05:00" ⟨2025, 3, 18, 15, 41, 44, some (-18000)⟩
    ⟨2025, 3, 18, 15, 41, 44⟩ rfl (by decide) (by decide)

set_option maxHeartbeats 1600000 in
/-- **C4, counterexample.**  The claim states that re-running export on the
same record list leaves the filesystem as after one run.  On the code this
fails for a record without `startTime`: its fallback filename embeds the
current time, so a second run at a later clock writes a second, differently
named file. -/
theorem claim_C4_counterexample :
    (export_data 0 nowLater (export_data 0 nowZero (mkState [noTimeRecord]))).files
        "0001-01-03-00-00-00-1.md" = some "x" ∧
      (export_data 0 nowZero (mkState [noTimeRecord])).files
        "0001-01-03-00-00-00-1.md" = none := by
  constructor <;> decide

set_option maxHeartbeats 1600000 in
/-- The write sequence does not depend on the clock when every record has
a truthy `startTime` (the fallback branch, the only reader of the clock,
is never taken). -/
theorem writeSeqFrom_now_irrel (sys : Int) (now₁ now₂ : Nat → Int) :
    ∀ (rs : List Record) (i : Nat), (∀ r ∈ rs, truthy r.startTime = true) →
      writeSeqFrom sys now₁ i rs = writeSeqFrom sys now₂ i rs := by
  intro rs
  induction rs with
  | nil => intro i _; rfl
  | cons r rs ih =>
    intro i h
    have hr := h r (List.mem_cons_self r rs)
    have hrec : recordWrite sys now₁ i r = recordWrite sys now₂ i r := by
      unfold recordWrite recordName
      rw [hr]
      simp
    have hu1 : writeSeqFrom sys now₁ i (r :: rs) =
        (recordWrite sys now₁ i r).toList ++ writeSeqFrom sys now₁ (i + 1) rs := rfl
    have hu2 : writeSeqFrom sys now₂ i (r :: rs) =
        (recordWrite sys now₂ i r).toList ++ writeSeqFrom sys now₂ (i + 1) rs := rfl
    rw [hu1, hu2, hrec, ih (i + 1) (fun r' hm => h r' (List.mem_cons_of_mem r hm))]

/-- **C4, amended.**  Re-running export on the same record list leaves the
directory contents unchanged — every file is overwritten with the content
it already has — provided every record carries a present, nonempty
`startTime` (records on the current-time fallback path can gain a new,
differently timestamped name on the second run). -/
theorem claim_C4 (sys : Int) (now₁ now₂ : Nat → Int) (st : FsState)
    (h : ∀ r ∈ st.records, truthy r.startTime = true) :
    (export_data sys now₂ (export_data sys now₁ st)).files =
      (export_data sys now₁ st).files := by
  rw [export_data_files, export_data_records, export_data_files,
    writeSeqFrom_now_irrel sys now₂ now₁ st.records 1 h]
  exact applyWrites_replay _ _

/-- **C4, witness.**  Idempotence applied to the one-record list of
scenario A, with the clock advanced between the runs. -/
theorem claim_C4_witness :
    (∀ r ∈ (mkState [scenarioARecord]).records, truthy r.startTime = true) ∧
      (export_data 0 nowLater (export_data 0 nowZero (mkState [scenarioARecord]))).files =
        (export_data 0 nowZero (mkState [scenarioARecord])).files := by
  have h : ∀ r ∈ (mkState [scenarioARecord]).records, truthy r.startTime = true := by
    intro r hr
    have : r = scenarioARecord := by simpa [mkState] using hr
    rw [this]
    decide
  exact ⟨h, claim_C4 0 nowZero nowLater (mkState [scenarioARecord]) h⟩

/-- **C5.**  A run logs the banner, the diagnostics, and then exactly one
progress line per record, in input order: the log-line sequence has the
length of the record list and its `j`-th entry is the line for record `j`
(1-based index `1 + j`).  In particular a parse failure on one record
leaves the lines of all later records in place — nothing propagates out of
the loop, which is a total function. -/
theorem claim_C5 (sys : Int) (now : Nat → Int) (st : FsState) (j : Nat)
    (r : Record) (hj : st.records[j]? = some r) :
    (export_data sys now st).log =
        st.log ++ [.header st.records.length] ++ debugLog st.records
          ++ logSeqFrom sys now st.records.length 1 st.records ∧
      (logSeqFrom sys now st.records.length 1 st.records).length =
        st.records.length ∧
      (logSeqFrom sys now st.records.length 1 st.records)[j]? =
        some (recordLog sys now (1 + j) st.records.length r) :=
  ⟨export_data_log sys now st, logSeqFrom_length sys now _ _ 1,
    logSeqFrom_get sys now _ _ 1 j r hj⟩

/-- **C5, witness.**  Scenario D: an unparseable record followed by a
fallback record; the second record still gets its progress line. -/
theorem claim_C5_witness :
    (mkState [badRecord, noTimeRecord]).records[1]? = some noTimeRecord ∧
      (logSeqFrom 0 nowZero 2 1 [badRecord, noTimeRecord]).length = 2 ∧
      (logSeqFrom 0 nowZero 2 1 [badRecord, noTimeRecord])[1]? =
        some (recordLog 0 nowZero 2 2 noTimeRecord) := by
  have hj : (mkState [badRecord, noTimeRecord]).records[1]? = some noTimeRecord := by
    decide
  have h := claim_C5 0 nowZero (mkState [badRecord, noTimeRecord]) 1 noTimeRecord hj
  exact ⟨hj, h.2.1, h.2.2⟩

/-- **C6.**  Whenever a loop iteration writes a file, the content written
is exactly the record's `markdown` field, defaulting to the empty string
when the field is absent; the write replaces whatever the directory held
under that name before (the prior contents of `st` are arbitrary). -/
theorem claim_C6 (sys : Int) (now : Nat → Int) (i n : Nat) (r : Record)
    (st : FsState) (nm : String)
    (hw : (processRecord sys now i n r st).writes = st.writes ++ [nm]) :
    (processRecord sys now i n r st).files nm = some (r.markdown.getD "") := by
  rw [processRecord_eq] at hw ⊢
  cases hrw : recordWrite sys now i r with
  | none =>
    rw [hrw] at hw
    have := congrArg List.length hw
    simp at this
  | some w =>
    rw [hrw] at hw
    unfold recordWrite at hrw
    cases hn : recordName sys now i r with
    | none => rw [hn] at hrw; simp at hrw
    | some nm0 =>
      rw [hn] at hrw
      injection hrw with hrw
      simp at hw
      subst hw
      show applyWrites [w] st.files w.1 = _
      show updateFile st.files w.1 w.2 w.1 = _
      rw [updateFile]
      rw [if_pos rfl, ← hrw]

/-- **C6, witness.**  The content law applied to the no-timestamp record
at index 2: the fallback-named file holds exactly its markdown text. -/
theorem claim_C6_witness :
    (processRecord 0 nowZero 2 2 noTimeRecord (mkState [])).writes =
        [] ++ ["0001-01-01-00-00-00-2.md"] ∧
      (processRecord 0 nowZero 2 2 noTimeRecord (mkState [])).files
          "0001-01-01-00-00-00-2.md" = some "x" := by
  have hw : (processRecord 0 nowZero 2 2 noTimeRecord (mkState [])).writes =
      [] ++ ["0001-01-01-00-00-00-2.md"] := by decide
  exact ⟨hw, claim_C6 0 nowZero 2 2 noTimeRecord (mkState []) _ hw⟩

/-- **C7.**  Scenario A, end to end: exporting the single record
`{"startTime": "2025-03-18T15:41:44-05:00", "markdown": "Hello"}` writes
exactly the file `2025-03-18-15-41-44.md` (the `-05:00` source offset
coincides with Chicago daylight time on that date, so the wall-clock time
is unchanged) with content `Hello`. -/
theorem claim_C7 :
    (export_data 0 nowZero (mkState [scenarioARecord])).files
        "2025-03-18-15-41-44.md" = some "Hello" ∧
      (export_data 0 nowZero (mkState [scenarioARecord])).writes =
        ["2025-03-18-15-41-44.md"] := by
  constructor <;> decide

/-- **C8.**  Scenario C: on the empty record list, export still creates
the export directory, performs no writes and leaves the directory
contents untouched; `main` prints its completion message after export
returns, as the last console line. -/
theorem claim_C8 (sys : Int) (now : Nat → Int) :
    (export_data sys now (mkState [])).dirExists = true ∧
      (export_data sys now (mkState [])).writes = [] ∧
      (export_data sys now (mkState [])).files = (mkState []).files ∧
      (mainAfterFetch sys now []).log.getLast? = some LogEntry.complete :=
  ⟨rfl, rfl, rfl, rfl⟩

/-- **C9.**  Export never mutates the record list it is given: the loop
only reads records (`dict.get`, iteration), and the state after a run
carries the input records unchanged. -/
theorem claim_C9 (sys : Int) (now : Nat → Int) (st : FsState) :
    (export_data sys now st).records = st.records :=
  export_data_records sys now st

/-- **C10.**  A record whose `startTime` is present but equal to the empty
string is falsy for the `if timestamp_str:` test of line 55, so export
takes the missing-timestamp fallback path: it writes the file named from
the current time with the 1-based index suffix, and logs the
no-timestamp message — it does not attempt to parse the empty string and
reports no parse error. -/
theorem claim_C10 (sys : Int) (now : Nat → Int) (i n : Nat) (md : Option String)
    (st : FsState) :
    (processRecord sys now i n ⟨some "", md⟩ st).writes =
        st.writes ++ [fallbackName now i] ∧
      (processRecord sys now i n ⟨some "", md⟩ st).files (fallbackName now i) =
        some (md.getD "") ∧
      (processRecord sys now i n ⟨some "", md⟩ st).log =
        st.log ++ [LogEntry.noTimestamp i n (fallbackName now i)] := by
  have ht : truthy (Record.mk (some "") md).startTime = false := rfl
  obtain ⟨recs, dir, files, writes, log⟩ := st
  rw [processRecord_eq]
  unfold recordWrite recordName recordLog
  rw [ht]
  refine ⟨by simp, ?_, by simp⟩
  simp [applyWrites, updateFile, fallbackName]

end SaveAllMarkdown
